import Mathlib

/-!
Shallow embedding of the tokenomics-planner computation core.

The source is a React component; its computational core consists of three
functions over a seven-category allocation map:

* handleDistributionChange — percentage/tge/duration edits with proportional
  rebalancing when a percentage edit would push the total over 100;
* generateUnlockSchedule — a 49-month (months 0..48) circulating-supply
  schedule built from per-category TGE unlocks and linear vesting;
* calculateMetrics — TGE circulating amount and percent, initial market cap,
  FDV/market-cap ratio, and a fixed list of warning strings.

JavaScript numbers are modelled as exact rationals (ℚ).  `Math.floor` is
Int.floor, `Math.round` is floor (x + 1/2) (JS rounds halves toward +∞,
including for negative arguments).  The vesting loop in the source writes
`schedule[month].rawCirculating` for `month` up to `data.duration`; when a
duration exceeds 48 the access `schedule[49]` yields `undefined` and the
member write throws, so the schedule builder is modelled as Option-valued,
with `none` for the thrown TypeError.  The guarded division in the
FDV/market-cap ratio is modelled with an explicit JavaScript value type
(`JsVal`) keeping track of Infinity and NaN results of division by zero.
-/

/-- The seven allocation categories, in the source's object-literal insertion
order (which is the `Object.entries` iteration order). -/
inductive Category where
  | publicSale
  | privateRounds
  | teamAndAdvisors
  | development
  | ecosystem
  | treasury
  | liquidityPool
deriving DecidableEq, Repr

/-- The per-category record `{ percentage, tge, duration }`.  In the source
`duration` is a JS number, but the only mutator clamps it with
`Math.max(0, Math.round ...)`, so in every reachable state it is a
non-negative integer; it is modelled as ℕ. -/
structure DistributionData where
  percentage : ℚ
  tge : ℚ
  duration : ℕ
deriving DecidableEq, Repr

/-- The distribution map: a fixed-key record with one `DistributionData` per
category. -/
structure Distribution where
  publicSale : DistributionData
  privateRounds : DistributionData
  teamAndAdvisors : DistributionData
  development : DistributionData
  ecosystem : DistributionData
  treasury : DistributionData
  liquidityPool : DistributionData
deriving DecidableEq, Repr

def Category.all : List Category :=
  [.publicSale, .privateRounds, .teamAndAdvisors, .development, .ecosystem,
   .treasury, .liquidityPool]

def Distribution.get (d : Distribution) : Category → DistributionData
  | .publicSale => d.publicSale
  | .privateRounds => d.privateRounds
  | .teamAndAdvisors => d.teamAndAdvisors
  | .development => d.development
  | .ecosystem => d.ecosystem
  | .treasury => d.treasury
  | .liquidityPool => d.liquidityPool

def Distribution.set (d : Distribution) (c : Category) (v : DistributionData) :
    Distribution :=
  match c with
  | .publicSale => { d with publicSale := v }
  | .privateRounds => { d with privateRounds := v }
  | .teamAndAdvisors => { d with teamAndAdvisors := v }
  | .development => { d with development := v }
  | .ecosystem => { d with ecosystem := v }
  | .treasury => { d with treasury := v }
  | .liquidityPool => { d with liquidityPool := v }

/-- The initial `useState` distribution value. -/
def defaultDistribution : Distribution where
  publicSale := ⟨20, 10, 12⟩
  privateRounds := ⟨15, 5, 24⟩
  teamAndAdvisors := ⟨15, 0, 36⟩
  development := ⟨20, 0, 48⟩
  ecosystem := ⟨15, 5, 36⟩
  treasury := ⟨10, 0, 48⟩
  liquidityPool := ⟨5, 20, 24⟩

/-- JavaScript `Math.round`: rounds to the nearest integer, halves toward
positive infinity (Math.round(-62.5) = -62). -/
def jsRound (x : ℚ) : ℤ := ⌊x + 1/2⌋

/-- The source's one-decimal rounding idiom `Math.round(x * 10) / 10`. -/
def roundTo1 (x : ℚ) : ℚ := (jsRound (x * 10) : ℚ) / 10

/-- `Object.values(distribution).reduce((sum, data) => sum + data.percentage, 0)`. -/
def percentageSum (d : Distribution) : ℚ :=
  (Category.all.map fun c => (d.get c).percentage).sum

/-- The sum of the percentages of every category other than the target:
`otherCategories.reduce((sum, [_, data]) => sum + data.percentage, 0)`. -/
def otherTotal (d : Distribution) (category : Category) : ℚ :=
  ((Category.all.filter fun c => c ≠ category).map
    fun c => (d.get c).percentage).sum

/-- Rebuild the distribution with every category's percentage replaced
(other fields kept), mirroring the `Object.entries(distribution).reduce`
that builds `newDistribution`. -/
def mapPercentages (d : Distribution) (f : Category → ℚ) : Distribution where
  publicSale := { d.publicSale with percentage := f .publicSale }
  privateRounds := { d.privateRounds with percentage := f .privateRounds }
  teamAndAdvisors := { d.teamAndAdvisors with percentage := f .teamAndAdvisors }
  development := { d.development with percentage := f .development }
  ecosystem := { d.ecosystem with percentage := f .ecosystem }
  treasury := { d.treasury with percentage := f .treasury }
  liquidityPool := { d.liquidityPool with percentage := f .liquidityPool }

/-- The residual-correction target: non-target entries reduced with
`curr.percentage > max.percentage ? curr : max` (first maximum wins ties).
The `[]` branch is unreachable — filtering one category from seven always
leaves six. -/
def largestOther (d : Distribution) (category : Category) : Category :=
  match Category.all.filter fun c => c ≠ category with
  | [] => category
  | c :: cs =>
      cs.foldl (fun m c2 =>
        if (d.get c2).percentage > (d.get m).percentage then c2 else m) c

/-- The three editable fields of `handleDistributionChange`. -/
inductive EditField where
  | percentage
  | tge
  | duration
deriving DecidableEq

/-- `handleDistributionChange(category, field, value)` from the source.
Percentage edits: clamp the value at 0; if the others' total plus the new
value stays within 100, set the target's percentage to the value rounded to
one decimal; otherwise scale every other category by
`(100 - value) / otherTotal`, round everything to one decimal, and if the
resulting total is not exactly 100 add the rounded residual to the largest
non-target allocation.  (The source's `if (largestCategory[0])` test is
always true — a category key is a non-empty string — and is dropped.  When
`otherTotal` is 0 the source divides by zero, producing an Infinity/NaN
scale; no claim exercises that case and ℚ division-by-zero junk is never
relied upon.)  `tge` edits are clamped to [0,100] and rounded to one
decimal; `duration` edits are clamped to ≥ 0 and rounded to an integer.
The over-100 branch is split out as `rebalanceDistribution`: it scales every
other category, rounds everything to one decimal, and if the resulting total
is not exactly 100 adds the rounded residual to the largest non-target
allocation. -/
def rebalanceDistribution (d : Distribution) (category : Category)
    (numValue : ℚ) : Distribution :=
  let ot := otherTotal d category
  let scale := (100 - numValue) / ot
  let nd := mapPercentages d fun c =>
    if c = category then roundTo1 numValue
    else roundTo1 ((d.get c).percentage * scale)
  let newTotal := percentageSum nd
  if newTotal ≠ 100 then
    let lc := largestOther nd category
    nd.set lc
      { nd.get lc with
        percentage := (nd.get lc).percentage + roundTo1 (100 - newTotal) }
  else nd

def handleDistributionChange (d : Distribution) (category : Category)
    (field : EditField) (value : ℚ) : Distribution :=
  let numValue := max 0 value
  match field with
  | .percentage =>
      let ot := otherTotal d category
      if ot + numValue ≤ 100 then
        d.set category { d.get category with percentage := roundTo1 numValue }
      else
        rebalanceDistribution d category numValue
  | .tge =>
      d.set category
        { d.get category with tge := min 100 (max 0 (roundTo1 numValue)) }
  | .duration =>
      d.set category
        { d.get category with duration := (max 0 (jsRound numValue)).toNat }

/-- One point of the returned unlock schedule. -/
structure UnlockPoint where
  month : ℕ
  circulating : ℚ
  percentCirculating : ℚ
deriving DecidableEq, Repr

/-- `tokenAmount = Math.floor((totalSupply * data.percentage) / 100)`. -/
def tokenAmountOf (totalSupply : ℚ) (data : DistributionData) : ℤ :=
  ⌊totalSupply * data.percentage / 100⌋

/-- `tgeAmount = Math.floor((tokenAmount * data.tge) / 100)`. -/
def tgeAmountOf (totalSupply : ℚ) (data : DistributionData) : ℤ :=
  ⌊(tokenAmountOf totalSupply data : ℚ) * data.tge / 100⌋

/-- `schedule[i].rawCirculating += x`, with the JS semantics that an index
outside the array yields `undefined` and the member write throws (`none`). -/
def addToSlot (l : List ℚ) (i : ℕ) (x : ℚ) : Option (List ℚ) :=
  if h : i < l.length then some (l.set i (l[i] + x)) else none

/-- The body of the per-category `forEach`: add the TGE amount to slot 0,
then, if the duration is positive, add `monthlyUnlock` to slots
1..duration. -/
def applyCategory (totalSupply : ℚ) (d : Distribution) (l : List ℚ)
    (c : Category) : Option (List ℚ) :=
  let data := d.get c
  let tokenAmount := tokenAmountOf totalSupply data
  let tgeAmount := tgeAmountOf totalSupply data
  let remainingAmount : ℤ := tokenAmount - tgeAmount
  let monthlyUnlock : ℚ :=
    if 0 < data.duration then (remainingAmount : ℚ) / (data.duration : ℚ) else 0
  (addToSlot l 0 (tgeAmount : ℚ)).bind fun l0 =>
    if 0 < data.duration then
      (List.range' 1 data.duration).foldlM
        (fun acc m => addToSlot acc m monthlyUnlock) l0
    else
      some l0

/-- The final cumulative pass: running sum of the raw slots, capped at the
total supply, with the month index threaded positionally. -/
def cumulateAux (totalSupply : ℚ) : ℚ → ℕ → List ℚ → List UnlockPoint
  | _, _, [] => []
  | acc, m, x :: xs =>
      let c := acc + x
      let actual := min c totalSupply
      ⟨m, actual, actual / totalSupply * 100⟩ ::
        cumulateAux totalSupply c (m + 1) xs

/-- `generateUnlockSchedule()`: 49 raw accumulator slots (months 0..48),
one forEach pass per category, then the cumulative capped map. -/
def generateUnlockSchedule (totalSupply : ℚ) (d : Distribution) :
    Option (List UnlockPoint) :=
  (Category.all.foldlM (fun l c => applyCategory totalSupply d l c)
      (List.replicate 49 0)).map
    (cumulateAux totalSupply 0 0)

/-- A JavaScript number outcome for the ratio computation: a finite value,
a signed infinity, or NaN. -/
inductive JsVal where
  | num : ℚ → JsVal
  | posInf : JsVal
  | negInf : JsVal
  | nan : JsVal
deriving DecidableEq, Repr

/-- JavaScript division `n / d` (the divisors in the source arise from
products of non-negative finite values, so a zero divisor is `+0`). -/
def jsDiv (n d : ℚ) : JsVal :=
  if d = 0 then
    if n = 0 then .nan else if 0 < n then .posInf else .negInf
  else .num (n / d)

/-- JavaScript `>` against a finite right operand: false for NaN,
true for +Infinity. -/
def JsVal.gtNum : JsVal → ℚ → Bool
  | .num q, c => decide (c < q)
  | .posInf, _ => true
  | .negInf, _ => false
  | .nan, _ => false

/-- The `fdv` state value: `Math.max(0, totalSupply * initialTokenPrice)`. -/
def fdv (totalSupply initialTokenPrice : ℚ) : ℚ :=
  max 0 (totalSupply * initialTokenPrice)

def warningHighTge : String := "High TGE unlock may cause price instability"

def warningHighFdv : String :=
  "High FDV/MCap ratio indicates significant future dilution"

def warningTeam : String := "Team allocation appears high"

def warningLiquidity : String :=
  "Low liquidity allocation may cause price volatility"

/-- The `warnings` array: four independently evaluated entries in fixed
order, falsy entries removed by `.filter(Boolean)`.  The second condition
short-circuits (`&&`) before re-computing `fdv / (tgeCirculating *
initialTokenPrice) > 100`. -/
def warningsList (totalSupply initialTokenPrice : ℚ) (d : Distribution)
    (tgeCirculating tgeCirculatingPercent : ℚ) : List String :=
  (if 25 < tgeCirculatingPercent then [warningHighTge] else []) ++
    ((if 0 < tgeCirculating ∧
          (jsDiv (fdv totalSupply initialTokenPrice)
            (tgeCirculating * initialTokenPrice)).gtNum 100 = true
      then [warningHighFdv] else []) ++
      ((if 20 < d.teamAndAdvisors.percentage then [warningTeam] else []) ++
        (if d.liquidityPool.percentage < 5 then [warningLiquidity] else [])))

/-- The metrics record returned by `calculateMetrics`.  `fdvToMcapRatio` is
a `JsVal` since the source stores `Number.POSITIVE_INFINITY` (and can
produce NaN) in it. -/
structure Metrics where
  tgeCirculating : ℚ
  tgeCirculatingPercent : ℚ
  initialMarketCap : ℚ
  fdvToMcapRatio : JsVal
  warnings : List String
deriving DecidableEq, Repr

/-- The metrics built from the month-0 unlock point. -/
def metricsFrom (totalSupply initialTokenPrice : ℚ) (d : Distribution)
    (pt : UnlockPoint) : Metrics :=
  let tgeCirculating := pt.circulating
  let tgeCirculatingPercent := tgeCirculating / totalSupply * 100
  { tgeCirculating := tgeCirculating
    tgeCirculatingPercent := tgeCirculatingPercent
    initialMarketCap := tgeCirculating * initialTokenPrice
    fdvToMcapRatio :=
      if 0 < tgeCirculating then
        jsDiv (fdv totalSupply initialTokenPrice)
          (tgeCirculating * initialTokenPrice)
      else .posInf
    warnings := warningsList totalSupply initialTokenPrice d
      tgeCirculating tgeCirculatingPercent }

/-- `calculateMetrics()`: reads `unlockSchedule[0]` (a throw — `none` — if
the schedule computation itself threw).  The schedule is never empty on
success, so the `[]` branch mirrors the impossible `undefined` read. -/
def calculateMetrics (totalSupply initialTokenPrice : ℚ) (d : Distribution) :
    Option Metrics :=
  (generateUnlockSchedule totalSupply d).bind fun unlockSchedule =>
    match unlockSchedule with
    | [] => none
    | pt :: _ => some (metricsFrom totalSupply initialTokenPrice d pt)

/-!
The concrete evaluations below go through `decide`.  Batteries marks the
`Rat` arithmetic operations `@[irreducible]`, which blocks the tactic-level
evaluation; they are restored to their normal reducibility locally (the
kernel ignores reducibility attributes, so this changes nothing about what
is proved).
-/
attribute [local semireducible] Rat.add Rat.mul Rat.sub Rat.inv
  Rat.ofScientific

/-! ## Basic lemmas about the distribution record -/

lemma get_set_self (d : Distribution) (c : Category) (v : DistributionData) :
    (d.set c v).get c = v := by
  cases c <;> rfl

lemma get_set_ne (d : Distribution) (c c2 : Category) (v : DistributionData)
    (h : c2 ≠ c) : (d.set c v).get c2 = d.get c2 := by
  cases c <;> cases c2 <;> first | rfl | exact absurd rfl h

lemma get_mapPercentages (d : Distribution) (f : Category → ℚ) (c : Category) :
    (mapPercentages d f).get c = { d.get c with percentage := f c } := by
  cases c <;> rfl

lemma percentageSum_mapPercentages (d : Distribution) (f : Category → ℚ) :
    percentageSum (mapPercentages d f) =
      f .publicSale + (f .privateRounds + (f .teamAndAdvisors +
        (f .development + (f .ecosystem + (f .treasury +
          (f .liquidityPool + 0)))))) := rfl

lemma percentageSum_set_percentage (d : Distribution) (c : Category) (p : ℚ) :
    percentageSum (d.set c { d.get c with percentage := p }) =
      percentageSum d - (d.get c).percentage + p := by
  cases c <;>
    simp [percentageSum, Category.all, Distribution.get, Distribution.set] <;>
    ring

/-! ## One-decimal values and JS rounding -/

/-- A rational that is an integer number of tenths; every value produced by
`roundTo1` is of this form. -/
def OneDecimal (q : ℚ) : Prop := ∃ n : ℤ, q = (n : ℚ) / 10

lemma oneDecimal_roundTo1 (x : ℚ) : OneDecimal (roundTo1 x) :=
  ⟨jsRound (x * 10), rfl⟩

lemma OneDecimal.add {a b : ℚ} : OneDecimal a → OneDecimal b →
    OneDecimal (a + b)
  | ⟨m, hm⟩, ⟨n, hn⟩ => ⟨m + n, by rw [hm, hn]; push_cast; ring⟩

lemma oneDecimal_zero : OneDecimal 0 := ⟨0, by norm_num⟩

lemma oneDecimal_100_sub {q : ℚ} : OneDecimal q → OneDecimal (100 - q)
  | ⟨n, hn⟩ => ⟨1000 - n, by rw [hn]; push_cast; ring⟩

lemma oneDecimal_ite (c : Prop) [Decidable c] {a b : ℚ} (ha : OneDecimal a)
    (hb : OneDecimal b) : OneDecimal (if c then a else b) := by
  split <;> assumption

/-- Rounding to one decimal is the identity on one-decimal values. -/
lemma roundTo1_eq_self {q : ℚ} (h : OneDecimal q) : roundTo1 q = q := by
  obtain ⟨n, rfl⟩ := h
  unfold roundTo1 jsRound
  rw [div_mul_cancel₀ _ (by norm_num : (10 : ℚ) ≠ 0), add_comm,
    Int.floor_add_int]
  norm_num

lemma roundTo1_ge_100 {v : ℚ} (hv : 100 < v) : 100 ≤ roundTo1 v := by
  unfold roundTo1 jsRound
  have h1 : (1000 : ℤ) ≤ ⌊v * 10 + 1 / 2⌋ :=
    Int.le_floor.mpr (by push_cast; linarith)
  have h2 : (1000 : ℚ) ≤ (⌊v * 10 + 1 / 2⌋ : ℤ) := by exact_mod_cast h1
  linarith

/-! ## The rebalancing branch -/

lemma foldl_max_mem (d : Distribution) (l : List Category) (c0 : Category) :
    l.foldl (fun m c2 =>
        if (d.get c2).percentage > (d.get m).percentage then c2 else m) c0 ∈
      c0 :: l := by
  induction l generalizing c0 with
  | nil => simp
  | cons c l ih =>
      rw [List.foldl_cons]
      by_cases hc : (d.get c).percentage > (d.get c0).percentage
      · rw [if_pos hc]
        exact List.mem_cons_of_mem _ (ih c)
      · rw [if_neg hc]
        have h := ih c0
        simp only [List.mem_cons] at h ⊢
        tauto

lemma largestOther_ne (d : Distribution) (cat : Category) :
    largestOther d cat ≠ cat := by
  have main : ∀ x : Category, x ∈ Category.all.filter (fun c => c ≠ cat) →
      x ≠ cat := by
    intro x hx
    simpa using List.of_mem_filter hx
  unfold largestOther
  split
  · rename_i h
    exfalso
    revert h
    cases cat <;> decide
  · rename_i c cs h
    exact main _ (h ▸ foldl_max_mem d cs c)

lemma residual_step_sum (nd : Distribution) (c2 : Category)
    (hS : OneDecimal (percentageSum nd)) :
    percentageSum
      (if percentageSum nd ≠ 100 then
        nd.set c2 { nd.get c2 with
          percentage :=
            (nd.get c2).percentage + roundTo1 (100 - percentageSum nd) }
      else nd) = 100 := by
  by_cases h : percentageSum nd = 100
  · simp [h]
  · rw [if_pos h, percentageSum_set_percentage,
      roundTo1_eq_self (oneDecimal_100_sub hS)]
    ring

lemma oneDecimal_rebalanced (d : Distribution) (cat : Category) (nv : ℚ) :
    OneDecimal (percentageSum (mapPercentages d fun c =>
      if c = cat then roundTo1 nv
      else roundTo1 ((d.get c).percentage * ((100 - nv) / otherTotal d cat)))) := by
  rw [percentageSum_mapPercentages]
  refine OneDecimal.add (oneDecimal_ite _ (oneDecimal_roundTo1 _)
    (oneDecimal_roundTo1 _)) ?_
  refine OneDecimal.add (oneDecimal_ite _ (oneDecimal_roundTo1 _)
    (oneDecimal_roundTo1 _)) ?_
  refine OneDecimal.add (oneDecimal_ite _ (oneDecimal_roundTo1 _)
    (oneDecimal_roundTo1 _)) ?_
  refine OneDecimal.add (oneDecimal_ite _ (oneDecimal_roundTo1 _)
    (oneDecimal_roundTo1 _)) ?_
  refine OneDecimal.add (oneDecimal_ite _ (oneDecimal_roundTo1 _)
    (oneDecimal_roundTo1 _)) ?_
  refine OneDecimal.add (oneDecimal_ite _ (oneDecimal_roundTo1 _)
    (oneDecimal_roundTo1 _)) ?_
  exact OneDecimal.add (oneDecimal_ite _ (oneDecimal_roundTo1 _)
    (oneDecimal_roundTo1 _)) oneDecimal_zero

/-- Whenever the rebalancing branch runs, the percentages it produces sum to
exactly 100 (the residual correction restores any rounding drift). -/
lemma rebalance_sum (d : Distribution) (cat : Category) (nv : ℚ) :
    percentageSum (rebalanceDistribution d cat nv) = 100 := by
  unfold rebalanceDistribution
  exact residual_step_sum _ _ (oneDecimal_rebalanced d cat nv)

lemma handle_percentage_over (d : Distribution) (cat : Category) (v : ℚ)
    (hb : ¬(otherTotal d cat + max 0 v ≤ 100)) :
    handleDistributionChange d cat .percentage v =
      rebalanceDistribution d cat (max 0 v) := by
  simp [handleDistributionChange, hb]

lemma handle_percentage_within (d : Distribution) (cat : Category) (v : ℚ)
    (hb : otherTotal d cat + max 0 v ≤ 100) :
    handleDistributionChange d cat .percentage v =
      d.set cat { d.get cat with percentage := roundTo1 (max 0 v) } := by
  simp [handleDistributionChange, hb]

lemma rebalance_get_target (d : Distribution) (cat : Category) (nv : ℚ) :
    ((rebalanceDistribution d cat nv).get cat).percentage = roundTo1 nv := by
  simp only [rebalanceDistribution]
  split
  · rw [get_set_ne _ _ _ _ (Ne.symm (largestOther_ne _ cat)),
      get_mapPercentages]
    simp
  · rw [get_mapPercentages]
    simp


/-! ## Claim C2 — rebalancing restores a sum of exactly 100 -/

/-- C2: for every Distribution and every percentage edit of a target
category to a value v in [0,100], if the pre-edit sum of the other
categories' percentages is positive and adding v would exceed 100 (so the
rebalancing branch is taken), then after normalization the percentages of
the seven categories sum to exactly 100. -/
theorem C2_rebalanced_sum (d : Distribution) (cat : Category) (v : ℚ)
    (h0 : 0 ≤ v) (_h1 : v ≤ 100) (_hot : 0 < otherTotal d cat)
    (hgt : 100 < otherTotal d cat + v) :
    percentageSum (handleDistributionChange d cat .percentage v) = 100 := by
  have hm : max 0 v = v := max_eq_right h0
  rw [handle_percentage_over d cat v (by rw [hm]; linarith), hm]
  exact rebalance_sum d cat v

theorem C2_witness :
    percentageSum (handleDistributionChange defaultDistribution .publicSale
      .percentage 50) = 100 :=
  C2_rebalanced_sum defaultDistribution .publicSale 50 (by norm_num)
    (by norm_num) (by decide) (by decide)

/-! ## Claim C6 — within-limit edits touch only the target's percentage -/

/-- C6: for every Distribution and every percentage edit to a value v ≥ 0
with otherTotal + v ≤ 100, the result has the target's percentage set to v
rounded to one decimal and every other field (the target's tge and
duration, and every other category's whole record) unchanged. -/
theorem C6_within_limit_frame (d : Distribution) (cat : Category) (v : ℚ)
    (h0 : 0 ≤ v) (hle : otherTotal d cat + v ≤ 100) :
    ((handleDistributionChange d cat .percentage v).get cat).percentage =
      roundTo1 v ∧
    ((handleDistributionChange d cat .percentage v).get cat).tge =
      (d.get cat).tge ∧
    ((handleDistributionChange d cat .percentage v).get cat).duration =
      (d.get cat).duration ∧
    ∀ c, c ≠ cat →
      (handleDistributionChange d cat .percentage v).get c = d.get c := by
  have hm : max 0 v = v := max_eq_right h0
  rw [handle_percentage_within d cat v (by rw [hm]; exact hle), hm]
  refine ⟨?_, ?_, ?_, fun c hc => ?_⟩
  · rw [get_set_self]
  · rw [get_set_self]
  · rw [get_set_self]
  · rw [get_set_ne _ _ _ _ hc]

theorem C6_witness :
    ((handleDistributionChange defaultDistribution .ecosystem .percentage
        10).get .ecosystem).percentage = roundTo1 10 ∧
    (handleDistributionChange defaultDistribution .ecosystem .percentage
        10).get .treasury = defaultDistribution.get .treasury := by
  have h := C6_within_limit_frame defaultDistribution .ecosystem 10
    (by norm_num) (by decide)
  exact ⟨h.1, h.2.2.2 .treasury (by decide)⟩

/-! ## Claim C9 — editing to 100 when the others sum to 100 -/

/-- C9: for every Distribution whose non-target categories' percentages sum
to exactly 100, setting the target's percentage to 100 takes the
rebalancing branch with scale (100-100)/100 = 0, every other category's
percentage becomes 0, the target's becomes 100, and the residual-correction
step (which contains no division at all) leaves the total at exactly 100 —
in particular the whole edit is a total function with no division by
zero. -/
theorem C9_edit_to_100_zeroes_others (d : Distribution) (cat : Category)
    (h : otherTotal d cat = 100) :
    (∀ c, c ≠ cat →
      ((handleDistributionChange d cat .percentage 100).get c).percentage =
        0) ∧
    ((handleDistributionChange d cat .percentage 100).get cat).percentage =
      100 ∧
    percentageSum (handleDistributionChange d cat .percentage 100) = 100 := by
  have hb : ¬(otherTotal d cat + max 0 (100 : ℚ) ≤ 100) := by
    rw [h]; norm_num
  rw [handle_percentage_over d cat 100 hb,
    (by norm_num : max (0 : ℚ) 100 = 100)]
  have r100 : roundTo1 (100 : ℚ) = 100 := roundTo1_eq_self ⟨1000, by norm_num⟩
  have r0 : roundTo1 (0 : ℚ) = 0 := roundTo1_eq_self oneDecimal_zero
  have hf : (fun c => if c = cat then roundTo1 (100 : ℚ)
      else roundTo1
        ((d.get c).percentage * ((100 - (100 : ℚ)) / otherTotal d cat))) =
      fun c => if c = cat then (100 : ℚ) else 0 := by
    funext c
    by_cases hc : c = cat
    · simp [hc, r100]
    · simp [hc, r0]
  have hsum : percentageSum
      (mapPercentages d fun c => if c = cat then (100 : ℚ) else 0) = 100 := by
    rw [percentageSum_mapPercentages]
    cases cat <;> simp
  have hres : rebalanceDistribution d cat 100 =
      mapPercentages d fun c => if c = cat then (100 : ℚ) else 0 := by
    simp only [rebalanceDistribution]
    rw [hf]
    simp [hsum]
  rw [hres]
  refine ⟨fun c hc => ?_, ?_, hsum⟩
  · rw [get_mapPercentages]
    simp [hc]
  · rw [get_mapPercentages]
    simp

def c9Distribution : Distribution where
  publicSale := ⟨0, 10, 12⟩
  privateRounds := ⟨20, 5, 24⟩
  teamAndAdvisors := ⟨15, 0, 36⟩
  development := ⟨20, 0, 48⟩
  ecosystem := ⟨15, 5, 36⟩
  treasury := ⟨10, 0, 48⟩
  liquidityPool := ⟨20, 20, 24⟩

theorem C9_witness :
    ((handleDistributionChange c9Distribution .publicSale .percentage
        100).get .privateRounds).percentage = 0 ∧
    ((handleDistributionChange c9Distribution .publicSale .percentage
        100).get .publicSale).percentage = 100 := by
  have h := C9_edit_to_100_zeroes_others c9Distribution .publicSale
    (by decide)
  exact ⟨h.1 .privateRounds (by decide), h.2.1⟩

/-! ## Claim C10 — over-100 edits are not clamped from above -/

def cexDistribution : Distribution where
  publicSale := ⟨20, 10, 12⟩
  privateRounds := ⟨100, 5, 24⟩
  teamAndAdvisors := ⟨1/100, 0, 36⟩
  development := ⟨0, 0, 48⟩
  ecosystem := ⟨0, 5, 36⟩
  treasury := ⟨0, 0, 48⟩
  liquidityPool := ⟨0, 20, 24⟩

/-- C10 counterexample: the claim asserts that after an over-100 edit every
other category's percentage is negative whenever its old value was
positive.  Editing publicSale to 150 in `cexDistribution` (otherTotal =
100.01 > 0) leaves teamAndAdvisors — whose old percentage 0.01 is positive
— at exactly 0, because 0.01 · (100-150)/100.01 ≈ -0.005 rounds to one
decimal as 0, refuting the claim as stated. -/
theorem C10_counterexample :
    0 < otherTotal cexDistribution .publicSale ∧
    (100 : ℚ) < 150 ∧
    0 < cexDistribution.teamAndAdvisors.percentage ∧
    ¬((handleDistributionChange cexDistribution .publicSale .percentage
        150).teamAndAdvisors.percentage < 0) := by decide

/-- C10 amended: percentage edits are clamped only from below.  For every
edit with v > 100 and pre-edit otherTotal > 0 the rebalancing branch is
taken, the target's percentage is stored as v rounded to one decimal — a
value at least 100 — and the rebalanced percentages (other categories
scaled by the negative factor (100-v)/otherTotal, rounded, with the
rounding residual added to the largest of them) sum to 100; the resulting
Distribution can contain percentages outside [0,100]: with the default
distribution and publicSale edited to 150, publicSale ends above 100 and
privateRounds ends negative. -/
theorem C10_amended_clamped_only_below (d : Distribution) (cat : Category)
    (v : ℚ) (hv : 100 < v) (hot : 0 < otherTotal d cat) :
    ((handleDistributionChange d cat .percentage v).get cat).percentage =
      roundTo1 v ∧
    100 ≤ roundTo1 v ∧
    percentageSum (handleDistributionChange d cat .percentage v) = 100 ∧
    (handleDistributionChange defaultDistribution .publicSale .percentage
        150).privateRounds.percentage < 0 ∧
    100 < (handleDistributionChange defaultDistribution .publicSale
        .percentage 150).publicSale.percentage := by
  have hm : max 0 v = v := max_eq_right (by linarith)
  have hb : ¬(otherTotal d cat + max 0 v ≤ 100) := by rw [hm]; linarith
  rw [handle_percentage_over d cat v hb, hm]
  exact ⟨rebalance_get_target d cat v, roundTo1_ge_100 hv,
    rebalance_sum d cat v, by decide,
    by decide⟩

theorem C10_witness :
    ((handleDistributionChange defaultDistribution .publicSale .percentage
        150).get .publicSale).percentage = roundTo1 150 ∧
    percentageSum (handleDistributionChange defaultDistribution .publicSale
      .percentage 150) = 100 := by
  have h := C10_amended_clamped_only_below defaultDistribution .publicSale
    150 (by norm_num) (by decide)
  exact ⟨h.1, h.2.2.1⟩

/-! ## Claim C1 — vesting beyond the 48-month horizon -/

def overHorizonDistribution : Distribution where
  publicSale := ⟨20, 10, 12⟩
  privateRounds := ⟨15, 5, 24⟩
  teamAndAdvisors := ⟨15, 0, 36⟩
  development := ⟨20, 0, 49⟩
  ecosystem := ⟨15, 5, 36⟩
  treasury := ⟨10, 0, 48⟩
  liquidityPool := ⟨5, 20, 24⟩

/-- C1: the claim (and the spec) say a category with vestingMonths > 48
has its unlocks beyond month 48 silently dropped and the 49 monthly points
are still returned.  In the source the vesting loop runs
`for (month = 1; month <= data.duration; month++)` over a 49-element array,
so a duration of 49 reads `schedule[49]` — `undefined` — and the member
write throws a TypeError: the function returns nothing at all (modelled as
`none`). -/
theorem C1_beyond_horizon_throws :
    generateUnlockSchedule 1000000000 overHorizonDistribution = none := by
  decide

/-! ## Claim C4 — the default scenario's metrics -/

/-- C4: with totalSupply 10^9, price 0.001 and the default distribution,
month-0 circulating is 45,000,000 tokens, tgeCirculatingPercent is 4.5,
the initial market cap is 45,000, the fully diluted value is 1,000,000 and
the FDV/MCap ratio is 1000000/45000 = 200/9 ≈ 22.2 (within 0.1 of 22.2). -/
theorem C4_default_scenario :
    calculateMetrics 1000000000 (1 / 1000) defaultDistribution =
      some { tgeCirculating := 45000000
             tgeCirculatingPercent := 45 / 10
             initialMarketCap := 45000
             fdvToMcapRatio := .num (200 / 9)
             warnings := [] } ∧
    fdv 1000000000 (1 / 1000) = 1000000 ∧
    |(200 : ℚ) / 9 - 222 / 10| ≤ 1 / 10 := by decide

/-! ## Schedule lemmas for C3 and C5 -/

lemma addToSlot_some {l l' : List ℚ} {i : ℕ} {x : ℚ}
    (h : addToSlot l i x = some l') :
    ∃ hi : i < l.length, l' = l.set i (l[i] + x) := by
  unfold addToSlot at h
  split at h
  · exact ⟨‹_›, (Option.some.inj h).symm⟩
  · exact absurd h (by simp)

lemma addToSlot_nonneg {l l' : List ℚ} {i : ℕ} {x : ℚ}
    (h : addToSlot l i x = some l') (hl : ∀ y ∈ l, 0 ≤ y) (hx : 0 ≤ x) :
    ∀ y ∈ l', 0 ≤ y := by
  obtain ⟨hi, rfl⟩ := addToSlot_some h
  intro y hy
  rcases List.mem_or_eq_of_mem_set hy with h1 | rfl
  · exact hl y h1
  · exact add_nonneg (hl _ (List.getElem_mem hi)) hx

lemma foldlM_addToSlot_nonneg (u : ℚ) (hu : 0 ≤ u) :
    ∀ (ms : List ℕ) (l l' : List ℚ), (∀ y ∈ l, 0 ≤ y) →
      ms.foldlM (fun acc m => addToSlot acc m u) l = some l' →
      ∀ y ∈ l', 0 ≤ y := by
  intro ms
  induction ms with
  | nil =>
      intro l l' hl h
      rw [List.foldlM_nil] at h
      cases h
      exact hl
  | cons m ms ih =>
      intro l l' hl h
      rw [List.foldlM_cons] at h
      obtain ⟨l1, h1, h2⟩ := Option.bind_eq_some.mp h
      exact ih l1 l' (addToSlot_nonneg h1 hl hu) h2

lemma tokenAmountOf_nonneg {s : ℚ} {data : DistributionData} (hs : 0 ≤ s)
    (hp : 0 ≤ data.percentage) : 0 ≤ tokenAmountOf s data :=
  Int.le_floor.mpr
    (by push_cast; exact div_nonneg (mul_nonneg hs hp) (by norm_num))

lemma tgeAmountOf_nonneg {s : ℚ} {data : DistributionData} (hs : 0 ≤ s)
    (hp : 0 ≤ data.percentage) (ht : 0 ≤ data.tge) :
    0 ≤ tgeAmountOf s data := by
  have htok : (0 : ℚ) ≤ ((tokenAmountOf s data : ℤ) : ℚ) := by
    exact_mod_cast tokenAmountOf_nonneg hs hp
  exact Int.le_floor.mpr
    (by push_cast; exact div_nonneg (mul_nonneg htok ht) (by norm_num))

lemma tgeAmountOf_le_tokenAmountOf {s : ℚ} {data : DistributionData}
    (hs : 0 ≤ s) (hp : 0 ≤ data.percentage) (ht1 : data.tge ≤ 100) :
    tgeAmountOf s data ≤ tokenAmountOf s data := by
  have htok : (0 : ℚ) ≤ ((tokenAmountOf s data : ℤ) : ℚ) := by
    exact_mod_cast tokenAmountOf_nonneg hs hp
  have hq : ((tokenAmountOf s data : ℤ) : ℚ) * data.tge / 100 ≤
      ((tokenAmountOf s data : ℤ) : ℚ) := by
    rw [div_le_iff₀ (by norm_num : (0 : ℚ) < 100)]
    exact mul_le_mul_of_nonneg_left ht1 htok
  calc tgeAmountOf s data
      ≤ ⌊((tokenAmountOf s data : ℤ) : ℚ)⌋ := Int.floor_le_floor hq
    _ = tokenAmountOf s data := Int.floor_intCast _

lemma applyCategory_nonneg {s : ℚ} {d : Distribution} {c : Category}
    {l l' : List ℚ} (hs : 0 ≤ s) (hp : 0 ≤ (d.get c).percentage)
    (ht0 : 0 ≤ (d.get c).tge) (ht1 : (d.get c).tge ≤ 100)
    (h : applyCategory s d l c = some l') (hl : ∀ y ∈ l, 0 ≤ y) :
    ∀ y ∈ l', 0 ≤ y := by
  have htge : (0 : ℤ) ≤ tgeAmountOf s (d.get c) := tgeAmountOf_nonneg hs hp ht0
  have hrem : (0 : ℚ) ≤
      ((tokenAmountOf s (d.get c) - tgeAmountOf s (d.get c) : ℤ) : ℚ) := by
    have := tgeAmountOf_le_tokenAmountOf hs hp ht1
    push_cast
    have hc : ((tgeAmountOf s (d.get c) : ℤ) : ℚ) ≤
        ((tokenAmountOf s (d.get c) : ℤ) : ℚ) := by exact_mod_cast this
    linarith
  simp only [applyCategory] at h
  obtain ⟨l0, h0, h1⟩ := Option.bind_eq_some.mp h
  have hl0 := addToSlot_nonneg h0 hl (by exact_mod_cast htge)
  split at h1
  · exact foldlM_addToSlot_nonneg _ (div_nonneg hrem (by positivity))
      _ _ _ hl0 h1
  · cases h1
    exact hl0

lemma foldlM_categories_nonneg {s : ℚ} {d : Distribution} (hs : 0 ≤ s) :
    ∀ (cats : List Category) (l l' : List ℚ),
      (∀ c ∈ cats, 0 ≤ (d.get c).percentage ∧ 0 ≤ (d.get c).tge ∧
        (d.get c).tge ≤ 100) →
      (∀ y ∈ l, 0 ≤ y) →
      cats.foldlM (fun l c => applyCategory s d l c) l = some l' →
      ∀ y ∈ l', 0 ≤ y := by
  intro cats
  induction cats with
  | nil =>
      intro l l' _ hl h
      rw [List.foldlM_nil] at h
      cases h
      exact hl
  | cons c cs ih =>
      intro l l' hc hl h
      rw [List.foldlM_cons] at h
      obtain ⟨l1, h1, h2⟩ := Option.bind_eq_some.mp h
      have hcc := hc c (List.mem_cons_self c cs)
      exact ih l1 l' (fun c2 hc2 => hc c2 (List.mem_cons_of_mem _ hc2))
        (applyCategory_nonneg hs hcc.1 hcc.2.1 hcc.2.2 h1 hl) h2

lemma cumulateAux_head (s acc : ℚ) (m : ℕ) (x : ℚ) (xs : List ℚ) :
    cumulateAux s acc m (x :: xs) =
      ⟨m, min (acc + x) s, min (acc + x) s / s * 100⟩ ::
        cumulateAux s (acc + x) (m + 1) xs := rfl

lemma cumulateAux_le (s : ℚ) :
    ∀ (xs : List ℚ) (acc : ℚ) (m : ℕ) (p : UnlockPoint),
      p ∈ cumulateAux s acc m xs → p.circulating ≤ s := by
  intro xs
  induction xs with
  | nil =>
      intro acc m p hp
      simp [cumulateAux] at hp
  | cons x xs ih =>
      intro acc m p hp
      rw [cumulateAux_head] at hp
      rcases List.mem_cons.mp hp with rfl | hp2
      · exact min_le_right _ _
      · exact ih _ _ _ hp2

lemma cumulateAux_chain (s : ℚ) :
    ∀ (xs : List ℚ) (acc : ℚ) (m : ℕ), (∀ x ∈ xs, 0 ≤ x) →
      List.Chain' (fun p q : UnlockPoint => p.circulating ≤ q.circulating)
        (cumulateAux s acc m xs) := by
  intro xs
  induction xs with
  | nil =>
      intro acc m _
      simp [cumulateAux]
  | cons x xs ih =>
      intro acc m hx
      rw [cumulateAux_head]
      cases xs with
      | nil => simp [cumulateAux]
      | cons y ys =>
          rw [cumulateAux_head]
          refine List.Chain'.cons ?_ ?_
          · show min (acc + x) s ≤ min (acc + x + y) s
            have hy : 0 ≤ y := hx y (by simp)
            exact min_le_min (by linarith) le_rfl
          · rw [← cumulateAux_head]
            exact ih (acc + x) (m + 1)
              (fun z hz => hx z (List.mem_cons_of_mem _ hz))

/-- Specification predicate for C3: every schedule the simulator returns has
a circulating series that is monotonically non-decreasing in the month index
and bounded by the total supply. -/
def monotoneBoundedSchedule (totalSupply : ℚ)
    (o : Option (List UnlockPoint)) : Prop :=
  ∀ sched, o = some sched →
    (∀ i j (hi : i < sched.length) (hj : j < sched.length), i ≤ j →
      sched[i].circulating ≤ sched[j].circulating) ∧
    ∀ p ∈ sched, p.circulating ≤ totalSupply

/-- C3: for every Distribution with all percentages and tgeUnlockPercents in
[0,100] (vestingMonths is a non-negative integer by type) and totalSupply at
least 1, the circulating value of the schedule produced by
generateUnlockSchedule is monotonically non-decreasing in the month index
and never exceeds totalSupply. -/
theorem C3_monotone_bounded (s : ℚ) (d : Distribution) (hs : 1 ≤ s)
    (hp : ∀ c, 0 ≤ (d.get c).percentage ∧ (d.get c).percentage ≤ 100)
    (ht : ∀ c, 0 ≤ (d.get c).tge ∧ (d.get c).tge ≤ 100) :
    monotoneBoundedSchedule s (generateUnlockSchedule s d) := by
  intro sched hsched
  simp only [generateUnlockSchedule] at hsched
  obtain ⟨raw, hraw, hcum⟩ := Option.map_eq_some'.mp hsched
  have hnn : ∀ y ∈ raw, 0 ≤ y :=
    foldlM_categories_nonneg (by linarith) Category.all _ _
      (fun c _ => ⟨(hp c).1, (ht c).1, (ht c).2⟩)
      (fun y hy => le_of_eq (List.eq_of_mem_replicate hy).symm)
      hraw
  subst hcum
  constructor
  · have hchain := cumulateAux_chain s raw 0 0 hnn
    have htrans : IsTrans UnlockPoint
        (fun p q => p.circulating ≤ q.circulating) :=
      ⟨fun _ _ _ hab hbc => le_trans hab hbc⟩
    have hpw : List.Pairwise (fun p q : UnlockPoint =>
        p.circulating ≤ q.circulating) (cumulateAux s 0 0 raw) :=
      (@List.chain'_iff_pairwise _ _ htrans _).mp hchain
    intro i j hi hj hij
    rcases eq_or_lt_of_le hij with rfl | hlt
    · exact le_refl _
    · exact List.pairwise_iff_getElem.mp hpw i j hi hj hlt
  · intro p hp2
    exact cumulateAux_le s raw 0 0 p hp2

theorem C3_witness :
    monotoneBoundedSchedule 1000000000
      (generateUnlockSchedule 1000000000 defaultDistribution) :=
  C3_monotone_bounded 1000000000 defaultDistribution (by norm_num)
    (by intro c; cases c <;> exact ⟨by decide, by decide⟩)
    (by intro c; cases c <;> exact ⟨by decide, by decide⟩)

/-! ## Claim C5 — the month-0 point -/

/-- The sum over the categories of
`floor(floor(totalSupply * percentage / 100) * tge / 100)`. -/
def tgeTotal (s : ℚ) (d : Distribution) : ℚ :=
  (Category.all.map fun c => ((tgeAmountOf s (d.get c) : ℤ) : ℚ)).sum

lemma addToSlot_getElem?_zero_of_pos {l l' : List ℚ} {i : ℕ} {x : ℚ}
    (h : addToSlot l i x = some l') (hi : 0 < i) : l'[0]? = l[0]? := by
  obtain ⟨hlen, rfl⟩ := addToSlot_some h
  exact List.getElem?_set_ne (by omega)

lemma foldlM_addToSlot_getElem?_zero (u : ℚ) :
    ∀ (ms : List ℕ) (l l' : List ℚ), (∀ m ∈ ms, 0 < m) →
      ms.foldlM (fun acc m => addToSlot acc m u) l = some l' →
      l'[0]? = l[0]? := by
  intro ms
  induction ms with
  | nil =>
      intro l l' _ h
      rw [List.foldlM_nil] at h
      cases h
      rfl
  | cons m ms ih =>
      intro l l' hm h
      rw [List.foldlM_cons] at h
      obtain ⟨l1, h1, h2⟩ := Option.bind_eq_some.mp h
      rw [ih l1 l' (fun m2 hm2 => hm m2 (List.mem_cons_of_mem _ hm2)) h2,
        addToSlot_getElem?_zero_of_pos h1 (hm m (List.mem_cons_self m ms))]

lemma addToSlot_getElem?_zero {l l' : List ℚ} {x v : ℚ}
    (h : addToSlot l 0 x = some l') (hv : l[0]? = some v) :
    l'[0]? = some (v + x) := by
  obtain ⟨hlen, rfl⟩ := addToSlot_some h
  rw [List.getElem?_set_self hlen]
  rw [List.getElem?_eq_getElem hlen] at hv
  rw [Option.some.inj hv]

lemma applyCategory_getElem?_zero {s : ℚ} {d : Distribution} {c : Category}
    {l l' : List ℚ} {v : ℚ} (h : applyCategory s d l c = some l')
    (hv : l[0]? = some v) :
    l'[0]? = some (v + ((tgeAmountOf s (d.get c) : ℤ) : ℚ)) := by
  simp only [applyCategory] at h
  obtain ⟨l0, h0, h1⟩ := Option.bind_eq_some.mp h
  have h00 := addToSlot_getElem?_zero h0 hv
  split at h1
  · rw [foldlM_addToSlot_getElem?_zero _ _ _ _ ?pos h1, h00]
    case pos =>
      intro m hm
      obtain ⟨i, _, rfl⟩ := List.mem_range'.mp hm
      omega
  · cases h1
    exact h00

lemma foldlM_categories_getElem?_zero {s : ℚ} {d : Distribution} :
    ∀ (cats : List Category) (l l' : List ℚ) (v : ℚ),
      l[0]? = some v →
      cats.foldlM (fun l c => applyCategory s d l c) l = some l' →
      l'[0]? = some
        (v + (cats.map fun c => ((tgeAmountOf s (d.get c) : ℤ) : ℚ)).sum) := by
  intro cats
  induction cats with
  | nil =>
      intro l l' v hv h
      rw [List.foldlM_nil] at h
      cases h
      simpa using hv
  | cons c cs ih =>
      intro l l' v hv h
      rw [List.foldlM_cons] at h
      obtain ⟨l1, h1, h2⟩ := Option.bind_eq_some.mp h
      rw [ih l1 l' _ (applyCategory_getElem?_zero h1 hv) h2,
        List.map_cons, List.sum_cons]
      congr 1
      ring

/-- Specification predicate for C5: the head of every schedule the simulator
returns is month 0 and carries the capped sum of the TGE amounts. -/
def month0Capped (s : ℚ) (d : Distribution)
    (o : Option (List UnlockPoint)) : Prop :=
  ∀ sched, o = some sched → ∀ p, sched.head? = some p →
    p.circulating = min (tgeTotal s d) s ∧ p.month = 0

/-- C5: for every Distribution with percentages and tgeUnlockPercents in
[0,100] and totalSupply at least 1, the month-0 circulating value returned
by generateUnlockSchedule equals the sum over all categories of
floor(floor(totalSupply * percentage / 100) * tgeUnlockPercent / 100),
capped at totalSupply. -/
theorem C5_month0_circulating (s : ℚ) (d : Distribution) (_hs : 1 ≤ s)
    (_hp : ∀ c, 0 ≤ (d.get c).percentage ∧ (d.get c).percentage ≤ 100)
    (_ht : ∀ c, 0 ≤ (d.get c).tge ∧ (d.get c).tge ≤ 100) :
    month0Capped s d (generateUnlockSchedule s d) := by
  intro sched hsched p hp0
  simp only [generateUnlockSchedule] at hsched
  obtain ⟨raw, hraw, hcum⟩ := Option.map_eq_some'.mp hsched
  have h0 : raw[0]? = some (0 + tgeTotal s d) := by
    rw [tgeTotal]
    exact foldlM_categories_getElem?_zero Category.all _ _ 0 (by simp) hraw
  cases raw with
  | nil => simp at h0
  | cons x xs =>
      simp only [List.getElem?_cons_zero] at h0
      have hx := Option.some.inj h0
      subst hcum
      rw [cumulateAux_head] at hp0
      simp only [List.head?_cons] at hp0
      cases Option.some.inj hp0
      constructor
      · show min (0 + x) s = min (tgeTotal s d) s
        rw [hx, zero_add, zero_add]
      · rfl

theorem C5_witness :
    month0Capped 1000000000 defaultDistribution
      (generateUnlockSchedule 1000000000 defaultDistribution) :=
  C5_month0_circulating 1000000000 defaultDistribution (by norm_num)
    (by intro c; cases c <;> exact ⟨by decide, by decide⟩)
    (by intro c; cases c <;> exact ⟨by decide, by decide⟩)

/-! ## Claims C7 and C8 — warnings and the FDV/MCap ratio -/

lemma calculateMetrics_eq_some {s p : ℚ} {d : Distribution} {m : Metrics}
    (h : calculateMetrics s p d = some m) :
    ∃ pt rest, generateUnlockSchedule s d = some (pt :: rest) ∧
      m = metricsFrom s p d pt := by
  simp only [calculateMetrics] at h
  obtain ⟨sched, hg, hm⟩ := Option.bind_eq_some.mp h
  cases sched with
  | nil => simp at hm
  | cons pt rest => exact ⟨pt, rest, hg, (Option.some.inj hm).symm⟩

lemma warningsList_spec (s p : ℚ) (d : Distribution) (a b : ℚ) :
    (warningHighTge ∈ warningsList s p d a b ↔ 25 < b) ∧
    (warningHighFdv ∈ warningsList s p d a b ↔
      (0 < a ∧ (jsDiv (fdv s p) (a * p)).gtNum 100 = true)) ∧
    (warningTeam ∈ warningsList s p d a b ↔
      20 < d.teamAndAdvisors.percentage) ∧
    (warningLiquidity ∈ warningsList s p d a b ↔
      d.liquidityPool.percentage < 5) ∧
    (warningsList s p d a b).Sublist
      [warningHighTge, warningHighFdv, warningTeam, warningLiquidity] := by
  have n12 : warningHighTge ≠ warningHighFdv := by decide
  have n13 : warningHighTge ≠ warningTeam := by decide
  have n14 : warningHighTge ≠ warningLiquidity := by decide
  have n23 : warningHighFdv ≠ warningTeam := by decide
  have n24 : warningHighFdv ≠ warningLiquidity := by decide
  have n34 : warningTeam ≠ warningLiquidity := by decide
  unfold warningsList
  by_cases h1 : 25 < b <;>
    by_cases h2 : 0 < a ∧ (jsDiv (fdv s p) (a * p)).gtNum 100 = true <;>
      by_cases h3 : 20 < d.teamAndAdvisors.percentage <;>
        by_cases h4 : d.liquidityPool.percentage < 5 <;>
          simp [h1, h2, h3, h4, n12, n13, n14, n23, n24, n34] <;>
          decide

/-- C7: for every input on which calculateMetrics returns, the warnings list
contains exactly those of the four fixed messages whose condition holds —
tgeCirculatingPercent > 25, (tgeCirculating > 0 and the recomputed
fdv/(tgeCirculating*price) exceeds 100 under JS comparison), teamAndAdvisors
percentage > 20, liquidityPool percentage < 5 — each evaluated
independently, listed in that fixed order (the list is a sublist of the
four messages in order); and editing liquidityPool.percentage to 4 with
all other defaults unchanged yields exactly the low-liquidity warning. -/
theorem C7_warnings (s p : ℚ) (d : Distribution) (m : Metrics)
    (h : calculateMetrics s p d = some m) :
    (warningHighTge ∈ m.warnings ↔ 25 < m.tgeCirculatingPercent) ∧
    (warningHighFdv ∈ m.warnings ↔
      (0 < m.tgeCirculating ∧
        (jsDiv (fdv s p) (m.tgeCirculating * p)).gtNum 100 = true)) ∧
    (warningTeam ∈ m.warnings ↔ 20 < d.teamAndAdvisors.percentage) ∧
    (warningLiquidity ∈ m.warnings ↔ d.liquidityPool.percentage < 5) ∧
    m.warnings.Sublist
      [warningHighTge, warningHighFdv, warningTeam, warningLiquidity] ∧
    (∃ m2, calculateMetrics 1000000000 (1 / 1000)
        (handleDistributionChange defaultDistribution .liquidityPool
          .percentage 4) = some m2 ∧ m2.warnings = [warningLiquidity]) := by
  obtain ⟨pt, rest, hg, rfl⟩ := calculateMetrics_eq_some h
  have hw := warningsList_spec s p d pt.circulating (pt.circulating / s * 100)
  refine ⟨hw.1, hw.2.1, hw.2.2.1, hw.2.2.2.1, hw.2.2.2.2, ?_⟩
  exact ⟨{ tgeCirculating := 43000000, tgeCirculatingPercent := 43 / 10,
           initialMarketCap := 43000, fdvToMcapRatio := .num (1000 / 43),
           warnings := [warningLiquidity] }, by decide, by decide⟩

/-- The metrics record produced by the default scenario, used by the
concrete instantiations below. -/
def defaultMetrics : Metrics where
  tgeCirculating := 45000000
  tgeCirculatingPercent := 9 / 2
  initialMarketCap := 45000
  fdvToMcapRatio := .num (200 / 9)
  warnings := []

theorem C7_witness :
    warningLiquidity ∈ defaultMetrics.warnings ↔
      defaultDistribution.liquidityPool.percentage < 5 :=
  (C7_warnings 1000000000 (1 / 1000) defaultDistribution defaultMetrics
    (by decide)).2.2.2.1

/-- C8 counterexample: the claim says no unguarded division by zero occurs
in the ratio computation for any input with totalSupply ≥ 1 and
initialTokenPrice ≥ 0.  With initialTokenPrice = 0 and the default
distribution, tgeCirculating = 45,000,000 > 0 passes the guard while the
divisor tgeCirculating * initialTokenPrice is 0, so the code divides 0 by 0
and stores NaN in the ratio. -/
theorem C8_counterexample :
    ∃ m, calculateMetrics 1000000000 0 defaultDistribution = some m ∧
      0 < m.tgeCirculating ∧ m.initialMarketCap = 0 ∧
      m.fdvToMcapRatio = JsVal.nan :=
  ⟨{ tgeCirculating := 45000000, tgeCirculatingPercent := 9 / 2,
     initialMarketCap := 0, fdvToMcapRatio := .nan, warnings := [] },
   by decide, by decide, by decide, by decide⟩

/-- C8 amended: for every input with totalSupply ≥ 1 and initialTokenPrice
≥ 0 on which calculateMetrics returns: when initialTokenPrice > 0 and
tgeCirculating > 0 the ratio is the finite quotient fdv / initialMarketCap
and the divisor is nonzero (no division by zero); when tgeCirculating = 0
the ratio is positive infinity without any division; but when
initialTokenPrice = 0 and tgeCirculating > 0 the guard passes with a zero
divisor and the ratio is NaN (0/0). -/
theorem C8_ratio_amended (s p : ℚ) (d : Distribution) (m : Metrics)
    (_hs : 1 ≤ s) (_hp : 0 ≤ p) (h : calculateMetrics s p d = some m) :
    (0 < p → 0 < m.tgeCirculating →
      m.fdvToMcapRatio = .num (fdv s p / m.initialMarketCap) ∧
      m.initialMarketCap ≠ 0) ∧
    (m.tgeCirculating = 0 → m.fdvToMcapRatio = .posInf) ∧
    (p = 0 → 0 < m.tgeCirculating → m.fdvToMcapRatio = JsVal.nan) := by
  obtain ⟨pt, rest, hg, rfl⟩ := calculateMetrics_eq_some h
  refine ⟨?_, ?_, ?_⟩
  · intro hp0 ha
    have ha' : 0 < pt.circulating := ha
    have hd : pt.circulating * p ≠ 0 := ne_of_gt (mul_pos ha' hp0)
    constructor
    · show (if 0 < pt.circulating then jsDiv (fdv s p) (pt.circulating * p)
        else .posInf) = .num (fdv s p / (pt.circulating * p))
      rw [if_pos ha']
      unfold jsDiv
      rw [if_neg hd]
    · exact hd
  · intro ha
    have ha' : pt.circulating = 0 := ha
    show (if 0 < pt.circulating then jsDiv (fdv s p) (pt.circulating * p)
      else .posInf) = .posInf
    rw [if_neg (by rw [ha']; exact lt_irrefl 0)]
  · intro hp0 ha
    have ha' : 0 < pt.circulating := ha
    show (if 0 < pt.circulating then jsDiv (fdv s p) (pt.circulating * p)
      else .posInf) = JsVal.nan
    rw [if_pos ha']
    unfold jsDiv fdv
    rw [hp0]
    simp

theorem C8_witness :
    defaultMetrics.fdvToMcapRatio =
      .num (fdv 1000000000 (1 / 1000) / defaultMetrics.initialMarketCap) ∧
    defaultMetrics.initialMarketCap ≠ 0 :=
  (C8_ratio_amended 1000000000 (1 / 1000) defaultDistribution defaultMetrics
    (by norm_num) (by norm_num) (by decide)).1 (by norm_num) (by decide)
